import Mathlib

/-!
Shallow embedding of the `noed` text editor (src/main.c) and verification of
its specification claims. Bytes are modelled as `Nat` (values 0..255), the
buffer as a `List Nat`, and `size_t` quantities as `Nat`; where the C code's
unsigned wrap-around matters it is modelled explicitly modulo `2^64`.
-/

namespace Noed

/-- A line span `(begin, end)` of byte offsets into the buffer, excluding the
terminating newline; mirrors `struct Line` in main.c. `end` is a Lean keyword,
so the field is written `«end»`. -/
structure Line where
  begin : Nat
  «end» : Nat
deriving Repr, DecidableEq

def defaultLine : Line := ⟨0, 0⟩

/-- The editor state: buffer bytes (`Data data`), derived line index
(`Lines lines`), absolute cursor offset, and viewport scroll offsets;
mirrors `struct Editor` in main.c. -/
structure Editor where
  data : List Nat
  lines : List Line
  cursor : Nat
  view_row : Nat
  view_col : Nat
deriving Repr, DecidableEq

/-- The scanning loop of `editor_recompute_lines`: `b` is the current line's
begin offset, `i` the absolute offset of the head of `bytes`. At each newline
byte (10) it emits `Line{b, i}` and starts a new line at `i+1`; after the scan
it unconditionally emits the final `Line{b, count}`. -/
def editor_recompute_lines_go : List Nat → Nat → Nat → List Line
  | [], b, i => [⟨b, i⟩]
  | x :: rest, b, i =>
    if x = 10 then ⟨b, i⟩ :: editor_recompute_lines_go rest (i + 1) (i + 1)
    else editor_recompute_lines_go rest b (i + 1)

/-- `editor_recompute_lines` (main.c): full rebuild of the line index from the
buffer contents. -/
def editor_recompute_lines (data : List Nat) : List Line :=
  editor_recompute_lines_go data 0 0

/-- `editor_insert_char` (main.c): clamp the cursor into `[0, count]`, shift
the suffix right by one (the `da_append` + `memmove`), write the byte at the
cursor, advance the cursor, rebuild the line index. -/
def editor_insert_char (e : Editor) (x : Nat) : Editor :=
  let c := if e.cursor > e.data.length then e.data.length else e.cursor
  let data := e.data.take c ++ x :: e.data.drop c
  { e with data := data, cursor := c + 1, lines := editor_recompute_lines data }

/-- `editor_delete_char` (main.c): when the cursor is strictly inside the
buffer, remove the byte at the cursor (shift the suffix left), rebuild lines. -/
def editor_delete_char (e : Editor) : Editor :=
  if e.cursor < e.data.length then
    let data := e.data.take e.cursor ++ e.data.drop (e.cursor + 1)
    { e with data := data, lines := editor_recompute_lines data }
  else e

/-- `editor_backdelete_char` (main.c): when `0 < cursor ≤ count`, remove the
byte before the cursor, move the cursor back one, rebuild lines. -/
def editor_backdelete_char (e : Editor) : Editor :=
  if 0 < e.cursor ∧ e.cursor ≤ e.data.length then
    let data := e.data.take (e.cursor - 1) ++ e.data.drop e.cursor
    { e with data := data, cursor := e.cursor - 1, lines := editor_recompute_lines data }
  else e

/-- The search loop of `editor_current_line`: returns the accumulator index `i`
at the first line whose span contains the cursor; after an unsuccessful scan
the C function returns 0. -/
def editor_current_line_go : List Line → Nat → Nat → Nat
  | [], _, _ => 0
  | l :: rest, cursor, i =>
    if l.begin ≤ cursor ∧ cursor ≤ l.«end» then i
    else editor_current_line_go rest cursor (i + 1)

/-- `editor_current_line` (main.c): index of the line containing the cursor. -/
def editor_current_line (e : Editor) : Nat :=
  editor_current_line_go e.lines e.cursor 0

/-- `is_display` (main.c): printable ASCII check `' ' <= x && x <= '~'`. -/
def is_display (x : Nat) : Bool := 32 ≤ x && x ≤ 126

/-- C `isalnum` in the default locale: ASCII digits and letters. -/
def isalnum (b : Nat) : Bool :=
  (48 ≤ b && b ≤ 57) || (65 ≤ b && b ≤ 90) || (97 ≤ b && b ≤ 122)

/-- `editor_move_char_right` (main.c). -/
def editor_move_char_right (e : Editor) : Editor :=
  if e.cursor < e.data.length then { e with cursor := e.cursor + 1 } else e

/-- `editor_move_char_left` (main.c). -/
def editor_move_char_left (e : Editor) : Editor :=
  if e.cursor > 0 then { e with cursor := e.cursor - 1 } else e

/-- `editor_move_line_down` (main.c): moves to the previous line (index - 1),
keeping the column, clamped to that line's end. -/
def editor_move_line_down (e : Editor) : Editor :=
  let line := editor_current_line e
  let column := e.cursor - (e.lines.getD line defaultLine).begin
  if line > 0 then
    let target := e.lines.getD (line - 1) defaultLine
    let c := target.begin + column
    { e with cursor := if c > target.«end» then target.«end» else c }
  else e

/-- `editor_move_line_up` (main.c): moves to the next line (index + 1),
keeping the column, clamped to that line's end. -/
def editor_move_line_up (e : Editor) : Editor :=
  let line := editor_current_line e
  let column := e.cursor - (e.lines.getD line defaultLine).begin
  if line < e.lines.length - 1 then
    let target := e.lines.getD (line + 1) defaultLine
    let c := target.begin + column
    { e with cursor := if c > target.«end» then target.«end» else c }
  else e

/-- One scanning loop of `editor_move_word_left`:
`while (0 < cursor && cursor < count && p(data[cursor])) cursor -= 1`. -/
def scan_left (data : List Nat) (p : Nat → Bool) : Nat → Nat
  | 0 => 0
  | c + 1 =>
    if c + 1 < data.length && p (data.getD (c + 1) 0) then scan_left data p c
    else c + 1

/-- `editor_move_word_left` (main.c): first skip non-alphanumeric bytes, then
skip alphanumeric bytes, decrementing the cursor. -/
def editor_move_word_left (e : Editor) : Editor :=
  let c := scan_left e.data (fun b => !isalnum b) e.cursor
  { e with cursor := scan_left e.data (fun b => isalnum b) c }

/-- One scanning loop of `editor_move_word_right`:
`while (0 <= cursor && cursor < count - 1 && p(data[cursor])) cursor += 1`.
This is the C semantics for `count ≥ 1`; for `count = 0` the C guard
`cursor < count - 1` wraps around (see `word_right_loop_guard`). -/
def scan_right (data : List Nat) (p : Nat → Bool) (cursor : Nat) : Nat :=
  if h : cursor < data.length - 1 ∧ p (data.getD cursor 0) = true then
    scan_right data p (cursor + 1)
  else cursor
termination_by data.length - 1 - cursor
decreasing_by omega

/-- `editor_move_word_right` (main.c), for buffers with `count ≥ 1`. -/
def editor_move_word_right (e : Editor) : Editor :=
  let c := scan_right e.data (fun b => !isalnum b) e.cursor
  { e with cursor := scan_right e.data (fun b => isalnum b) c }

/-- 64-bit wrapping subtraction, modelling C `size_t` subtraction. -/
def size_t_sub (a b : Nat) : Nat := (a + (2 ^ 64 - b % 2 ^ 64)) % 2 ^ 64

/-- The first loop guard of `editor_move_word_right` with faithful `size_t`
semantics: `e->cursor < e->data.count - 1` (the `0 <= e->cursor` conjunct is
vacuous on an unsigned type). When the guard holds, the loop body reads
`e->data.items[e->cursor]`. -/
def word_right_loop_guard (cursor count : Nat) : Bool :=
  decide (cursor % 2 ^ 64 < size_t_sub count 1)

/-- A line is blank when its span is empty; the paragraph moves test
`lines.items[row].end - lines.items[row].begin == 0` (Nat subtraction matches
size_t here because the index keeps `begin ≤ end`). -/
def line_blank (l : Line) : Bool := l.«end» - l.begin == 0

/-- One upward scanning loop of `editor_move_paragraph_up`:
`while (row > 0 && p(lines[row])) row -= 1`. -/
def para_up_skip (lines : List Line) (p : Line → Bool) : Nat → Nat
  | 0 => 0
  | r + 1 =>
    if p (lines.getD (r + 1) defaultLine) then para_up_skip lines p r
    else r + 1

/-- `editor_move_paragraph_up` (main.c): skip blank lines upward, then skip
non-blank lines upward, and land at that line's begin. -/
def editor_move_paragraph_up (e : Editor) : Editor :=
  let row := editor_current_line e
  let row := para_up_skip e.lines (fun l => line_blank l) row
  let row := para_up_skip e.lines (fun l => !line_blank l) row
  { e with cursor := (e.lines.getD row defaultLine).begin }

/-- One downward scanning loop of `editor_move_paragraph_down`:
`while (row < lines.count - 1 && p(lines[row])) row += 1`. -/
def para_down_skip (lines : List Line) (p : Line → Bool) (row : Nat) : Nat :=
  if h : row < lines.length - 1 ∧ p (lines.getD row defaultLine) = true then
    para_down_skip lines p (row + 1)
  else row
termination_by lines.length - 1 - row
decreasing_by omega

/-- `editor_move_paragraph_down` (main.c). -/
def editor_move_paragraph_down (e : Editor) : Editor :=
  let row := editor_current_line e
  let row := para_down_skip e.lines (fun l => line_blank l) row
  let row := para_down_skip e.lines (fun l => !line_blank l) row
  { e with cursor := (e.lines.getD row defaultLine).begin }

/-- `editor_move_to_buffer_start` (main.c). -/
def editor_move_to_buffer_start (e : Editor) : Editor := { e with cursor := 0 }

/-- `editor_move_to_buffer_end` (main.c). -/
def editor_move_to_buffer_end (e : Editor) : Editor :=
  { e with cursor := e.data.length }

/-- `editor_move_to_line_start` (main.c). -/
def editor_move_to_line_start (e : Editor) : Editor :=
  { e with cursor := (e.lines.getD (editor_current_line e) defaultLine).begin }

/-- `editor_move_to_line_end` (main.c). -/
def editor_move_to_line_end (e : Editor) : Editor :=
  { e with cursor := (e.lines.getD (editor_current_line e) defaultLine).«end» }

/-- The state of the path given to the editor, as distinguished by the
`stat` checks in `editor_open_file`: missing (`ENOENT`), a regular file with
its exact byte contents, or an existing non-regular file. The raw read/write
syscalls themselves are the spec's opaque byte service; the retry loops in
`editor_open_file`/`editor_save_to_file` transfer the exact byte sequence. -/
inductive FileState where
  | missing
  | regular (bytes : List Nat)
  | notRegular
deriving Repr, DecidableEq

/-- `editor_open_file` (main.c): a missing file is a valid empty document; a
non-regular file is a load error; a regular file is read back as its exact
byte sequence. On success the line index is rebuilt. -/
def editor_open_file (e : Editor) (f : FileState) : Option Editor :=
  match f with
  | .missing => some { e with data := [], lines := editor_recompute_lines [] }
  | .notRegular => none
  | .regular bytes =>
      some { e with data := bytes, lines := editor_recompute_lines bytes }

/-- `editor_save_to_file` (main.c): the write loop stores the buffer's exact
byte sequence, truncating whatever was there before. -/
def editor_save_to_file (e : Editor) : FileState := .regular e.data

/-- The display grid: flat `rows*cols` character matrix (bytes) plus the
on-screen cursor position; mirrors `struct Display` in main.c. -/
structure Display where
  chars : List Nat
  cursor_row : Nat
  cursor_col : Nat
  rows : Nat
  cols : Nat
deriving Repr, DecidableEq

/-- The bytes of the mode-indicator label `"-- INSERT --"` (12 columns). -/
def insert_label : List Nat := [45, 45, 32, 73, 78, 83, 69, 82, 84, 32, 45, 45]

/-- One grid row of the render pass of `editor_rerender`: rows inside the line
index show the line's visible slice (offset by `view_col`, bounded by the line
length and the column budget) padded with spaces; rows beyond show `~`. -/
def render_line_row (e : Editor) (view_col cols row : Nat) : List Nat :=
  if row < e.lines.length then
    let l := e.lines.getD row defaultLine
    let line_size := l.«end» - l.begin
    let vc := if view_col > line_size then line_size else view_col
    let size := min (line_size - vc) cols
    (e.data.drop (l.begin + vc)).take size ++ List.replicate (cols - size) 32
  else
    126 :: List.replicate (cols - 1) 32

/-- `editor_rerender` (main.c): clear the grid to spaces; if the terminal is
smaller than the minimum usable size (fewer than 2 rows or narrower than the
mode-indicator label) return without doing anything else; otherwise clamp the
viewport to keep the cursor visible, write the visible lines, the optional
mode label on the reserved last row, and the on-screen cursor position. -/
def editor_rerender (e : Editor) (insert : Bool) (d : Display) : Editor × Display :=
  if d.rows < 2 ∨ d.cols < insert_label.length then
    (e, { d with chars := List.replicate (d.rows * d.cols) 32 })
  else
    let rows := d.rows - 1
    let cols := d.cols
    let cursor_row := editor_current_line e
    let cursor_col := e.cursor - (e.lines.getD cursor_row defaultLine).begin
    let vr0 := if cursor_row < e.view_row then cursor_row else e.view_row
    let vr := if cursor_row ≥ vr0 + rows then cursor_row - rows + 1 else vr0
    let vc0 := if cursor_col < e.view_col then cursor_col else e.view_col
    let vc := if cursor_col ≥ vc0 + cols then cursor_col - cols + 1 else vc0
    let e2 : Editor := { e with view_row := vr, view_col := vc }
    let grid := (List.range rows).flatMap (fun i => render_line_row e2 vc cols (vr + i))
    let last :=
      if insert then insert_label ++ List.replicate (cols - insert_label.length) 32
      else List.replicate cols 32
    let ccol := if cursor_col > cols then cols else cursor_col
    (e2, { d with chars := grid ++ last, cursor_row := cursor_row - vr, cursor_col := ccol })

/-- The outcome of dispatching one decoded key event: the new insert-mode
flag, the new editor state, whether the session quits, and the file contents
written when a save was triggered (`none` when no save occurred). -/
structure StepResult where
  insert : Bool
  editor : Editor
  quit : Bool
  saved : Option FileState
deriving Repr, DecidableEq

/-- The per-event dispatch of `editor_start_interactive` (main.c): the body of
the event loop after a complete escape sequence `seq` was read, compared with
the fixed byte sequences (`strcmp`). `ES_ESCAPE` is `[27]`, `ES_BACKSPACE` is
`[127]`, `ES_DELETE` is `[27, 91, 51, 126]`; `"\x1b "` is `[27, 32]`. -/
def dispatch (insert : Bool) (seq : List Nat) (e : Editor) : StepResult :=
  if insert then
    if seq = [27, 32] ∨ seq = [27] then
      { insert := false, editor := e, quit := false, saved := some (editor_save_to_file e) }
    else if seq = [127] then
      { insert := true, editor := editor_backdelete_char e, quit := false, saved := none }
    else if seq = [27, 91, 51, 126] then
      { insert := true, editor := editor_delete_char e, quit := false, saved := none }
    else if seq = [10] then
      { insert := true, editor := editor_insert_char e 10, quit := false, saved := none }
    else if seq.length = 1 ∧ is_display (seq.getD 0 0) then
      { insert := true, editor := editor_insert_char e (seq.getD 0 0), quit := false, saved := none }
    else
      { insert := true, editor := e, quit := false, saved := none }
  else
    if seq = [113] then
      { insert := false, editor := e, quit := true, saved := none }
    else if seq = [27, 32] ∨ seq = [32] then
      { insert := true, editor := e, quit := false, saved := none }
    else if seq = [115] then
      { insert := false, editor := editor_move_line_up e, quit := false, saved := none }
    else if seq = [119] then
      { insert := false, editor := editor_move_line_down e, quit := false, saved := none }
    else if seq = [97] then
      { insert := false, editor := editor_move_char_left e, quit := false, saved := none }
    else if seq = [100] then
      { insert := false, editor := editor_move_char_right e, quit := false, saved := none }
    else if seq = [107] then
      { insert := false, editor := editor_move_word_left e, quit := false, saved := none }
    else if seq = [59] then
      { insert := false, editor := editor_move_word_right e, quit := false, saved := none }
    else if seq = [111] then
      { insert := false, editor := editor_move_paragraph_up e, quit := false, saved := none }
    else if seq = [108] then
      { insert := false, editor := editor_move_paragraph_down e, quit := false, saved := none }
    else if seq = [79] then
      { insert := false, editor := editor_move_to_buffer_start e, quit := false, saved := none }
    else if seq = [76] then
      { insert := false, editor := editor_move_to_buffer_end e, quit := false, saved := none }
    else if seq = [75] then
      { insert := false, editor := editor_move_to_line_start e, quit := false, saved := none }
    else if seq = [58] then
      { insert := false, editor := editor_move_to_line_end e, quit := false, saved := none }
    else if seq = [27, 91, 51, 126] then
      { insert := false, editor := editor_delete_char e, quit := false, saved := none }
    else if seq = [127] then
      { insert := false, editor := editor_backdelete_char e, quit := false, saved := none }
    else if seq = [10] then
      { insert := false, editor := editor_insert_char e 10, quit := false, saved := none }
    else
      { insert := false, editor := e, quit := false, saved := none }

/-- C `isdigit`: ASCII decimal digits. -/
def isdigit (b : Nat) : Bool := 48 ≤ b && b ≤ 57

/-- The accumulating loop of `decimal_string_as_uint64_with_overflow`:
`*result` is a `uint64_t`, so each step is taken modulo `2^64`. -/
def decimal_go : List Nat → Nat → Option Nat
  | [], acc => some acc
  | c :: rest, acc =>
    if isdigit c then decimal_go rest ((acc * 10 + (c - 48)) % 2 ^ 64)
    else none

/-- `decimal_string_as_uint64_with_overflow` (main.c): despite its name it
performs no overflow rejection; it returns `none` exactly on a non-digit. -/
def decimal_string_as_uint64_with_overflow (s : List Nat) : Option Nat :=
  decimal_go s 0

/-- The mathematical decimal value of a digit string (no wrap-around). -/
def decimal_value (s : List Nat) : Nat :=
  s.foldl (fun a c => a * 10 + (c - 48)) 0

/-- The `-gt` value handling in `main` (main.c): a rejected value prints usage
and exits with status 1 (`Except.error 1`); an accepted value becomes the
goto line number. -/
def handle_gt_value (s : List Nat) : Except Nat Nat :=
  match decimal_string_as_uint64_with_overflow s with
  | some v => Except.ok v
  | none => Except.error 1

/-- The `-gt` cursor placement in `main` (main.c): clamp the requested line to
the last valid index, then place the cursor at that line's begin. -/
def apply_goto_line (e : Editor) (goto_line : Nat) : Editor :=
  let g := if goto_line ≥ e.lines.length then e.lines.length - 1 else goto_line
  { e with cursor := (e.lines.getD g defaultLine).begin }

/-- Well-formedness of a line index: `wf_from b s ls` says that `ls` covers
exactly the inclusive offset range `[b, s]` with contiguous, ordered spans
(each next line starts one past the previous line's end, accounting for the
newline byte). The empty list covers the empty range, i.e. `b = s + 1`. -/
def wf_from : Nat → Nat → List Line → Prop
  | b, s, [] => b = s + 1
  | b, s, l :: rest => l.begin = b ∧ l.begin ≤ l.«end» ∧ wf_from (l.«end» + 1) s rest

theorem recompute_go_wf : ∀ (bytes : List Nat) (b i : Nat), b ≤ i →
    wf_from b (i + bytes.length) (editor_recompute_lines_go bytes b i) := by
  intro bytes
  induction bytes with
  | nil =>
    intro b i h
    simp only [editor_recompute_lines_go, List.length_nil, Nat.add_zero, wf_from]
    exact ⟨trivial, h, trivial⟩
  | cons x rest ih =>
    intro b i h
    have harith : (i + 1) + rest.length = i + (x :: rest).length := by
      simp [List.length_cons]; omega
    simp only [editor_recompute_lines_go]
    by_cases hx : x = 10
    · rw [if_pos hx]
      refine ⟨rfl, h, ?_⟩
      have hrec := ih (i + 1) (i + 1) (Nat.le_refl _)
      rwa [harith] at hrec
    · rw [if_neg hx]
      have hrec := ih b (i + 1) (by omega)
      rwa [harith] at hrec

theorem wf_from_ne_nil {b s : Nat} {ls : List Line} (hwf : wf_from b s ls)
    (hbs : b ≤ s) : ls ≠ [] := by
  cases ls with
  | nil => simp only [wf_from] at hwf; omega
  | cons l rest => simp

theorem wf_from_head {b s : Nat} {ls : List Line} (hwf : wf_from b s ls)
    (hne : ls ≠ []) : (ls.getD 0 defaultLine).begin = b := by
  cases ls with
  | nil => exact absurd rfl hne
  | cons l rest => simpa using hwf.1

theorem wf_from_last : ∀ (ls : List Line) (b s : Nat), wf_from b s ls → ls ≠ [] →
    (ls.getD (ls.length - 1) defaultLine).«end» = s := by
  intro ls
  induction ls with
  | nil => intro b s _ hne; exact absurd rfl hne
  | cons l rest ih =>
    intro b s hwf _
    obtain ⟨hb, hle, hrest⟩ := hwf
    cases rest with
    | nil =>
      simp only [wf_from] at hrest
      simp only [List.length_cons, List.length_nil, Nat.add_sub_cancel, List.getD_cons_zero]
      omega
    | cons l2 rest2 =>
      have htail := ih (l.«end» + 1) s hrest (by simp)
      have hidx : (l :: l2 :: rest2).length - 1 = ((l2 :: rest2).length - 1) + 1 := by
        simp [List.length_cons]
      rw [hidx, List.getD_cons_succ]
      exact htail

theorem wf_from_contig : ∀ (ls : List Line) (b s i : Nat), wf_from b s ls →
    i + 1 < ls.length →
    (ls.getD i defaultLine).«end» + 1 = (ls.getD (i + 1) defaultLine).begin := by
  intro ls
  induction ls with
  | nil => intro b s i _ hi; simp at hi
  | cons l rest ih =>
    intro b s i hwf hi
    obtain ⟨hb, hle, hrest⟩ := hwf
    cases i with
    | zero =>
      cases rest with
      | nil => simp at hi
      | cons l2 rest2 =>
        obtain ⟨hb2, _, _⟩ := hrest
        simp only [List.getD_cons_zero, List.getD_cons_succ]
        omega
    | succ j =>
      have := ih (l.«end» + 1) s j hrest (by simp only [List.length_cons] at hi ⊢; omega)
      simpa using this

theorem wf_from_begin_ge : ∀ (ls : List Line) (b s j : Nat), wf_from b s ls →
    j < ls.length → b ≤ (ls.getD j defaultLine).begin := by
  intro ls
  induction ls with
  | nil => intro b s j _ hj; simp at hj
  | cons l rest ih =>
    intro b s j hwf hj
    obtain ⟨hb, hle, hrest⟩ := hwf
    cases j with
    | zero => simp [hb]
    | succ j' =>
      have := ih (l.«end» + 1) s j' hrest (by simp only [List.length_cons] at hj; omega)
      rw [List.getD_cons_succ]
      omega

theorem wf_from_mem : ∀ (ls : List Line) (b s cursor : Nat), wf_from b s ls →
    b ≤ cursor → cursor ≤ s →
    ∃ i, i < ls.length ∧ (ls.getD i defaultLine).begin ≤ cursor ∧
      cursor ≤ (ls.getD i defaultLine).«end» := by
  intro ls
  induction ls with
  | nil =>
    intro b s cursor hwf hbc hcs
    simp only [wf_from] at hwf
    omega
  | cons l rest ih =>
    intro b s cursor hwf hbc hcs
    obtain ⟨hb, hle, hrest⟩ := hwf
    by_cases hc : cursor ≤ l.«end»
    · exact ⟨0, by simp, by simp [hb]; omega, by simpa using hc⟩
    · obtain ⟨i, hi, h1, h2⟩ := ih (l.«end» + 1) s cursor hrest (by omega) hcs
      exact ⟨i + 1, by simp only [List.length_cons]; omega,
        by rwa [List.getD_cons_succ], by rwa [List.getD_cons_succ]⟩

theorem wf_from_unique : ∀ (ls : List Line) (b s cursor i j : Nat), wf_from b s ls →
    i < ls.length → j < ls.length →
    (ls.getD i defaultLine).begin ≤ cursor → cursor ≤ (ls.getD i defaultLine).«end» →
    (ls.getD j defaultLine).begin ≤ cursor → cursor ≤ (ls.getD j defaultLine).«end» →
    i = j := by
  intro ls
  induction ls with
  | nil => intro b s cursor i j _ hi; simp at hi
  | cons l rest ih =>
    intro b s cursor i j hwf hi hj hib hie hjb hje
    obtain ⟨hb, hle, hrest⟩ := hwf
    cases i with
    | zero =>
      cases j with
      | zero => rfl
      | succ j' =>
        exfalso
        have hj' : j' < rest.length := by simp only [List.length_cons] at hj; omega
        have := wf_from_begin_ge rest (l.«end» + 1) s j' hrest hj'
        rw [List.getD_cons_succ] at hjb
        simp only [List.getD_cons_zero] at hie
        omega
    | succ i' =>
      cases j with
      | zero =>
        exfalso
        have hi' : i' < rest.length := by simp only [List.length_cons] at hi; omega
        have := wf_from_begin_ge rest (l.«end» + 1) s i' hrest hi'
        rw [List.getD_cons_succ] at hib
        simp only [List.getD_cons_zero] at hje
        omega
      | succ j' =>
        have hi' : i' < rest.length := by simp only [List.length_cons] at hi; omega
        have hj' : j' < rest.length := by simp only [List.length_cons] at hj; omega
        rw [List.getD_cons_succ] at hib hie hjb hje
        have := ih (l.«end» + 1) s cursor i' j' hrest hi' hj' hib hie hjb hje
        omega

theorem current_line_go_spec : ∀ (ls : List Line) (cursor k i : Nat),
    i < ls.length →
    (ls.getD i defaultLine).begin ≤ cursor → cursor ≤ (ls.getD i defaultLine).«end» →
    (∀ j, j < i → ¬((ls.getD j defaultLine).begin ≤ cursor ∧
      cursor ≤ (ls.getD j defaultLine).«end»)) →
    editor_current_line_go ls cursor k = k + i := by
  intro ls
  induction ls with
  | nil => intro cursor k i hi; simp at hi
  | cons l rest ih =>
    intro cursor k i hi hib hie hfirst
    cases i with
    | zero =>
      simp only [List.getD_cons_zero] at hib hie
      simp [editor_current_line_go, hib, hie]
    | succ i' =>
      have hnot : ¬(l.begin ≤ cursor ∧ cursor ≤ l.«end») := by
        have := hfirst 0 (Nat.succ_pos _)
        simpa using this
      rw [List.getD_cons_succ] at hib hie
      have hi' : i' < rest.length := by simp only [List.length_cons] at hi; omega
      have hfirst' : ∀ j, j < i' → ¬((rest.getD j defaultLine).begin ≤ cursor ∧
          cursor ≤ (rest.getD j defaultLine).«end») := by
        intro j hj
        have := hfirst (j + 1) (by omega)
        rwa [List.getD_cons_succ] at this
      have := ih cursor (k + 1) i' hi' hib hie hfirst'
      simp only [editor_current_line_go, if_neg hnot]
      omega

theorem recompute_wf (data : List Nat) :
    wf_from 0 data.length (editor_recompute_lines data) := by
  have := recompute_go_wf data 0 0 (Nat.le_refl 0)
  simpa [editor_recompute_lines] using this

theorem recompute_ne_nil (data : List Nat) : editor_recompute_lines data ≠ [] :=
  wf_from_ne_nil (recompute_wf data) (Nat.zero_le _)

/-- Claim C1: after any rebuild of the line index (and every insert/delete
rebuilds it), the index has at least one line, its first line begins at
offset 0, its last line ends at the buffer length, consecutive lines are
contiguous (`line[i].end + 1 = line[i+1].begin`), and the empty buffer yields
exactly one zero-length line `(0, 0)`. -/
theorem lineIndex_invariant (data : List Nat) :
    0 < (editor_recompute_lines data).length ∧
    ((editor_recompute_lines data).getD 0 defaultLine).begin = 0 ∧
    ((editor_recompute_lines data).getD ((editor_recompute_lines data).length - 1)
      defaultLine).«end» = data.length ∧
    (∀ i, i + 1 < (editor_recompute_lines data).length →
      ((editor_recompute_lines data).getD i defaultLine).«end» + 1 =
        ((editor_recompute_lines data).getD (i + 1) defaultLine).begin) ∧
    editor_recompute_lines [] = [⟨0, 0⟩] := by
  have hwf := recompute_wf data
  have hne := recompute_ne_nil data
  exact ⟨List.length_pos.mpr hne, wf_from_head hwf hne,
    wf_from_last _ _ _ hwf hne,
    fun i hi => wf_from_contig _ _ _ _ hwf hi, rfl⟩

/-- Witness for `lineIndex_invariant` at the concrete buffer `"a\n\nb"`. -/
theorem lineIndex_invariant_witness :
    ((editor_recompute_lines [97, 10, 10, 98]).getD 0 defaultLine).«end» + 1 =
      ((editor_recompute_lines [97, 10, 10, 98]).getD 1 defaultLine).begin ∧
    ((editor_recompute_lines [97, 10, 10, 98]).getD
      ((editor_recompute_lines [97, 10, 10, 98]).length - 1) defaultLine).«end» = 4 :=
  ⟨(lineIndex_invariant [97, 10, 10, 98]).2.2.2.1 0 (by decide),
   (lineIndex_invariant [97, 10, 10, 98]).2.2.1⟩

/-- Claim C5: for a consistent line index covering `[0, s]` and any cursor in
`[0, s]`, exactly one line index `i` has `line[i].begin ≤ cursor ≤
line[i].end`, and `editor_current_line` returns that `i`; on the buffer
`"ab\ncd\n"` (length 6, lines `[(0,2),(3,5),(6,6)]`) cursor 4 gives current
line 1 and column 1. -/
theorem current_line_unique (e : Editor) (s : Nat)
    (hwf : wf_from 0 s e.lines) (hc : e.cursor ≤ s) :
    (∃ i, (i < e.lines.length ∧
        (e.lines.getD i defaultLine).begin ≤ e.cursor ∧
        e.cursor ≤ (e.lines.getD i defaultLine).«end») ∧
      (∀ j, j < e.lines.length →
        (e.lines.getD j defaultLine).begin ≤ e.cursor →
        e.cursor ≤ (e.lines.getD j defaultLine).«end» → j = i) ∧
      editor_current_line e = i) ∧
    editor_recompute_lines [97, 98, 10, 99, 100, 10] = [⟨0, 2⟩, ⟨3, 5⟩, ⟨6, 6⟩] ∧
    editor_current_line ⟨[97, 98, 10, 99, 100, 10],
      editor_recompute_lines [97, 98, 10, 99, 100, 10], 4, 0, 0⟩ = 1 ∧
    4 - ((editor_recompute_lines [97, 98, 10, 99, 100, 10]).getD 1 defaultLine).begin
      = 1 := by
  refine ⟨?_, by decide, by decide, by decide⟩
  obtain ⟨i, hi, hib, hie⟩ := wf_from_mem e.lines 0 s e.cursor hwf (Nat.zero_le _) hc
  refine ⟨i, ⟨hi, hib, hie⟩, ?_, ?_⟩
  · intro j hj hjb hje
    exact wf_from_unique e.lines 0 s e.cursor j i hwf hj hi hjb hje hib hie
  · have hfirst : ∀ j, j < i → ¬((e.lines.getD j defaultLine).begin ≤ e.cursor ∧
        e.cursor ≤ (e.lines.getD j defaultLine).«end») := by
      intro j hj hmatch
      have := wf_from_unique e.lines 0 s e.cursor j i hwf (by omega) hi
        hmatch.1 hmatch.2 hib hie
      omega
    have := current_line_go_spec e.lines e.cursor 0 i hi hib hie hfirst
    simpa [editor_current_line] using this

/-- Witness for `current_line_unique` on the buffer `"ab\ncd\n"` at cursor 4. -/
theorem current_line_unique_witness :
    editor_current_line ⟨[97, 98, 10, 99, 100, 10],
      editor_recompute_lines [97, 98, 10, 99, 100, 10], 4, 0, 0⟩ = 1 :=
  (current_line_unique
    ⟨[97, 98, 10, 99, 100, 10], editor_recompute_lines [97, 98, 10, 99, 100, 10], 4, 0, 0⟩
    6 (recompute_wf [97, 98, 10, 99, 100, 10]) (by decide)).2.2.1

theorem getD_append_left {l1 l2 : List Nat} {i : Nat} (h : i < l1.length) (d : Nat) :
    (l1 ++ l2).getD i d = l1.getD i d := by
  simp [List.getD_eq_getElem?_getD, List.getElem?_append_left h]

theorem getD_append_right {l1 l2 : List Nat} {i : Nat} (h : l1.length ≤ i) (d : Nat) :
    (l1 ++ l2).getD i d = l2.getD (i - l1.length) d := by
  simp [List.getD_eq_getElem?_getD, List.getElem?_append_right h]

theorem getD_take {l : List Nat} {c i : Nat} (h : i < c) (d : Nat) :
    (l.take c).getD i d = l.getD i d := by
  simp [List.getD_eq_getElem?_getD, List.getElem?_take_of_lt h]

theorem getD_drop (l : List Nat) (c j : Nat) (d : Nat) :
    (l.drop c).getD j d = l.getD (c + j) d := by
  simp [List.getD_eq_getElem?_getD, List.getElem?_drop]

/-- The cursor clamp of `editor_insert_char` written with `min`. -/
theorem editor_insert_char_eq (e : Editor) (x : Nat) :
    editor_insert_char e x =
      { e with
        data := e.data.take (min e.cursor e.data.length) ++
          x :: e.data.drop (min e.cursor e.data.length),
        cursor := min e.cursor e.data.length + 1,
        lines := editor_recompute_lines (e.data.take (min e.cursor e.data.length) ++
          x :: e.data.drop (min e.cursor e.data.length)) } := by
  have hc : (if e.cursor > e.data.length then e.data.length else e.cursor)
      = min e.cursor e.data.length := by
    split <;> omega
  simp [editor_insert_char, hc]

/-- The list-level content of buffer insertion at a clamped position `m`. -/
theorem insert_list_spec (d : List Nat) (x m : Nat) (hml : m ≤ d.length) :
    (d.take m ++ x :: d.drop m).length = d.length + 1 ∧
    (d.take m ++ x :: d.drop m).getD m 0 = x ∧
    (∀ i, i < m → (d.take m ++ x :: d.drop m).getD i 0 = d.getD i 0) ∧
    (∀ i, m ≤ i → i < d.length →
      (d.take m ++ x :: d.drop m).getD (i + 1) 0 = d.getD i 0) := by
  have htake : (d.take m).length = m := by
    simp [List.length_take]; omega
  refine ⟨?_, ?_, ?_, ?_⟩
  · simp only [List.length_append, List.length_cons, List.length_drop, htake]
    omega
  · rw [getD_append_right (by omega)]
    simp [htake]
  · intro i hi
    rw [getD_append_left (by omega), getD_take hi]
  · intro i him hil
    rw [getD_append_right (by omega), htake]
    have hidx : i + 1 - m = (i - m) + 1 := by omega
    rw [hidx, List.getD_cons_succ, getD_drop]
    have hmi : m + (i - m) = i := by omega
    rw [hmi]

/-- Claim C2: insert first clamps the cursor into `[0, length]`; the result is
one byte longer; the byte at the old clamped cursor is `x`; the bytes before
the old cursor are unchanged and the bytes at/after it are shifted one slot
right; the cursor becomes the old clamped cursor plus 1. Inserting `'X'` at
cursor 2 into `"ab\ncd"` yields `"abX\ncd"`, cursor 3, lines `[(0,3),(4,6)]`. -/
theorem insert_char_spec (e : Editor) (x : Nat) :
    (editor_insert_char e x).data.length = e.data.length + 1 ∧
    (editor_insert_char e x).data.getD (min e.cursor e.data.length) 0 = x ∧
    (∀ i, i < min e.cursor e.data.length →
      (editor_insert_char e x).data.getD i 0 = e.data.getD i 0) ∧
    (∀ i, min e.cursor e.data.length ≤ i → i < e.data.length →
      (editor_insert_char e x).data.getD (i + 1) 0 = e.data.getD i 0) ∧
    (editor_insert_char e x).cursor = min e.cursor e.data.length + 1 ∧
    editor_insert_char
      ⟨[97, 98, 10, 99, 100], editor_recompute_lines [97, 98, 10, 99, 100], 2, 0, 0⟩ 88 =
      ⟨[97, 98, 88, 10, 99, 100], [⟨0, 3⟩, ⟨4, 6⟩], 3, 0, 0⟩ := by
  have hlist := insert_list_spec e.data x (min e.cursor e.data.length)
    (Nat.min_le_right _ _)
  simp only [editor_insert_char_eq]
  exact ⟨hlist.1, hlist.2.1, hlist.2.2.1, hlist.2.2.2, trivial, by decide⟩

/-- Witness for `insert_char_spec`: inserting `'X'` into `"ab\ncd"` at
cursor 2 leaves the first two bytes unchanged and shifts byte 2 to slot 3. -/
theorem insert_char_spec_witness :
    (editor_insert_char
      ⟨[97, 98, 10, 99, 100], editor_recompute_lines [97, 98, 10, 99, 100], 2, 0, 0⟩
      88).data.getD 1 0 = 98 ∧
    (editor_insert_char
      ⟨[97, 98, 10, 99, 100], editor_recompute_lines [97, 98, 10, 99, 100], 2, 0, 0⟩
      88).data.getD 3 0 = 10 :=
  ⟨(insert_char_spec
      ⟨[97, 98, 10, 99, 100], editor_recompute_lines [97, 98, 10, 99, 100], 2, 0, 0⟩
      88).2.2.1 1 (by decide),
   (insert_char_spec
      ⟨[97, 98, 10, 99, 100], editor_recompute_lines [97, 98, 10, 99, 100], 2, 0, 0⟩
      88).2.2.2.1 2 (by decide) (by decide)⟩

/-- Claim C4: for a cursor in `[0, length]`, inserting a byte and then
delete-backward at the resulting cursor restores the original buffer bytes
and the original cursor position. -/
theorem insert_backdelete_roundtrip (e : Editor) (x : Nat)
    (h : e.cursor ≤ e.data.length) :
    (editor_backdelete_char (editor_insert_char e x)).data = e.data ∧
    (editor_backdelete_char (editor_insert_char e x)).cursor = e.cursor := by
  have hm : min e.cursor e.data.length = e.cursor := by omega
  have htake : (e.data.take e.cursor).length = e.cursor := by
    simp [List.length_take]; omega
  rw [editor_insert_char_eq, hm]
  have hcond : 0 < e.cursor + 1 ∧
      e.cursor + 1 ≤ (e.data.take e.cursor ++ x :: e.data.drop e.cursor).length := by
    constructor
    · omega
    · simp only [List.length_append, List.length_cons, List.length_drop, htake]
      omega
  rw [editor_backdelete_char]
  simp only [if_pos hcond]
  constructor
  · have h1 : (e.data.take e.cursor ++ x :: e.data.drop e.cursor).take (e.cursor + 1 - 1)
        = e.data.take e.cursor := by
      rw [Nat.add_sub_cancel, List.take_left' htake]
    have h2 : (e.data.take e.cursor ++ x :: e.data.drop e.cursor).drop (e.cursor + 1)
        = e.data.drop e.cursor := by
      have hsplit : e.data.take e.cursor ++ x :: e.data.drop e.cursor
          = (e.data.take e.cursor ++ [x]) ++ e.data.drop e.cursor := by
        simp
      rw [hsplit]
      exact List.drop_left' (by simp [htake])
    rw [h1, h2, List.take_append_drop]
  · simp

/-- Witness for `insert_backdelete_roundtrip` on `"ab\ncd"` at cursor 2. -/
theorem insert_backdelete_roundtrip_witness :
    (editor_backdelete_char (editor_insert_char
      ⟨[97, 98, 10, 99, 100], editor_recompute_lines [97, 98, 10, 99, 100], 2, 0, 0⟩
      88)).data = [97, 98, 10, 99, 100] ∧
    (editor_backdelete_char (editor_insert_char
      ⟨[97, 98, 10, 99, 100], editor_recompute_lines [97, 98, 10, 99, 100], 2, 0, 0⟩
      88)).cursor = 2 :=
  insert_backdelete_roundtrip
    ⟨[97, 98, 10, 99, 100], editor_recompute_lines [97, 98, 10, 99, 100], 2, 0, 0⟩
    88 (by decide)

/-- Claim C3 fails on the empty buffer: with faithful `size_t` semantics the
first loop guard of `editor_move_word_right`, `e->cursor < e->data.count - 1`,
fires for `count = 0`, `cursor = 0` because `count - 1` wraps to `2^64 - 1`;
the loop body then reads `e->data.items[0]`, but the zero-length buffer has no
valid offset at all — an out-of-bounds access the claim rules out. -/
theorem word_right_empty_buffer_oob :
    word_right_loop_guard 0 0 = true ∧ ¬ 0 < ([] : List Nat).length := by
  exact ⟨by decide, by simp⟩

/-- Claim C6: saving stores the buffer's exact byte sequence with no
transformation, and loading the saved file back succeeds and yields
byte-identical content, with the line index rebuilt from those bytes. -/
theorem save_load_roundtrip (e e0 : Editor) :
    editor_save_to_file e = FileState.regular e.data ∧
    ∃ e2, editor_open_file e0 (editor_save_to_file e) = some e2 ∧
      e2.data = e.data ∧ e2.lines = editor_recompute_lines e.data :=
  ⟨rfl, _, rfl, rfl, rfl⟩

/-- Claim C7: after loading a file, the `-gt` placement clamps the requested
0-based line number to the last valid line index and puts the cursor at that
line's begin; `-gt 10` on the 3-line file `"a\nb\nc"` places the cursor at
line index 2's begin (offset 4). -/
theorem goto_line_clamps (e0 e : Editor) (f : List Nat) (n : Nat)
    (hopen : editor_open_file e0 (FileState.regular f) = some e) :
    (apply_goto_line e n).cursor =
      (e.lines.getD (min n (e.lines.length - 1)) defaultLine).begin ∧
    min n (e.lines.length - 1) < e.lines.length ∧
    (apply_goto_line
      ⟨[97, 10, 98, 10, 99], editor_recompute_lines [97, 10, 98, 10, 99], 0, 0, 0⟩
      10).cursor = 4 := by
  have he : { e0 with data := f, lines := editor_recompute_lines f } = e := by
    simpa [editor_open_file] using hopen
  have hlen : 0 < e.lines.length := by
    rw [← he]
    exact List.length_pos.mpr (recompute_ne_nil f)
  refine ⟨?_, by omega, by decide⟩
  have hidx : (if n ≥ e.lines.length then e.lines.length - 1 else n)
      = min n (e.lines.length - 1) := by
    split <;> omega
  simp only [apply_goto_line, hidx]

/-- Witness for `goto_line_clamps`: `-gt 10` on the 3-line file `"a\nb\nc"`. -/
theorem goto_line_clamps_witness :
    (apply_goto_line
      ⟨[97, 10, 98, 10, 99], editor_recompute_lines [97, 10, 98, 10, 99], 0, 0, 0⟩
      10).cursor = 4 :=
  (goto_line_clamps ⟨[], [], 0, 0, 0⟩
    ⟨[97, 10, 98, 10, 99], editor_recompute_lines [97, 10, 98, 10, 99], 0, 0, 0⟩
    [97, 10, 98, 10, 99] 10 rfl).2.2

/-- Claim C8: when the terminal has fewer than 2 rows or fewer columns than
the `"-- INSERT --"` label (12), the renderer skips the frame: the editor
(including its viewport) is unchanged, the display's cursor position is
untouched, and the grid holds no content beyond blanks. -/
theorem rerender_skips_small_terminal (e : Editor) (insert : Bool) (d : Display)
    (h : d.rows < 2 ∨ d.cols < insert_label.length) :
    (editor_rerender e insert d).1 = e ∧
    (editor_rerender e insert d).2.cursor_row = d.cursor_row ∧
    (editor_rerender e insert d).2.cursor_col = d.cursor_col ∧
    (editor_rerender e insert d).2.rows = d.rows ∧
    (editor_rerender e insert d).2.cols = d.cols ∧
    (∀ c ∈ (editor_rerender e insert d).2.chars, c = 32) := by
  rw [editor_rerender, if_pos h]
  exact ⟨rfl, rfl, rfl, rfl, rfl, fun c hc => List.eq_of_mem_replicate hc⟩

/-- Witness for `rerender_skips_small_terminal` on a 1-row terminal. -/
theorem rerender_skips_small_terminal_witness :
    (editor_rerender ⟨[], [⟨0, 0⟩], 0, 0, 0⟩ false ⟨[], 0, 0, 1, 80⟩).1
      = ⟨[], [⟨0, 0⟩], 0, 0, 0⟩ ∧
    (editor_rerender ⟨[], [⟨0, 0⟩], 0, 0, 0⟩ false ⟨[], 0, 0, 1, 80⟩).2.cursor_row = 0 :=
  ⟨(rerender_skips_small_terminal ⟨[], [⟨0, 0⟩], 0, 0, 0⟩ false ⟨[], 0, 0, 1, 80⟩
      (Or.inl (by decide))).1,
   (rerender_skips_small_terminal ⟨[], [⟨0, 0⟩], 0, 0, 0⟩ false ⟨[], 0, 0, 1, 80⟩
      (Or.inl (by decide))).2.1⟩

/-- Characterization of the Navigation-mode dispatch: the mode flips to
Insertion exactly on the toggle events, and no event saves. -/
theorem dispatch_nav_char (seq : List Nat) (e : Editor) :
    ((dispatch false seq e).insert = true ↔ (seq = [27, 32] ∨ seq = [32])) ∧
    (dispatch false seq e).saved = none := by
  unfold dispatch
  rw [if_neg Bool.false_ne_true]
  by_cases h1 : seq = [113]
  · rw [if_pos h1]; exact ⟨by simp [h1], rfl⟩
  rw [if_neg h1]
  by_cases h2 : seq = [27, 32] ∨ seq = [32]
  · rw [if_pos h2]; exact ⟨by simp [h2], rfl⟩
  rw [if_neg h2]
  by_cases h3 : seq = [115]
  · rw [if_pos h3]; exact ⟨by simp [h2], rfl⟩
  rw [if_neg h3]
  by_cases h4 : seq = [119]
  · rw [if_pos h4]; exact ⟨by simp [h2], rfl⟩
  rw [if_neg h4]
  by_cases h5 : seq = [97]
  · rw [if_pos h5]; exact ⟨by simp [h2], rfl⟩
  rw [if_neg h5]
  by_cases h6 : seq = [100]
  · rw [if_pos h6]; exact ⟨by simp [h2], rfl⟩
  rw [if_neg h6]
  by_cases h7 : seq = [107]
  · rw [if_pos h7]; exact ⟨by simp [h2], rfl⟩
  rw [if_neg h7]
  by_cases h8 : seq = [59]
  · rw [if_pos h8]; exact ⟨by simp [h2], rfl⟩
  rw [if_neg h8]
  by_cases h9 : seq = [111]
  · rw [if_pos h9]; exact ⟨by simp [h2], rfl⟩
  rw [if_neg h9]
  by_cases h10 : seq = [108]
  · rw [if_pos h10]; exact ⟨by simp [h2], rfl⟩
  rw [if_neg h10]
  by_cases h11 : seq = [79]
  · rw [if_pos h11]; exact ⟨by simp [h2], rfl⟩
  rw [if_neg h11]
  by_cases h12 : seq = [76]
  · rw [if_pos h12]; exact ⟨by simp [h2], rfl⟩
  rw [if_neg h12]
  by_cases h13 : seq = [75]
  · rw [if_pos h13]; exact ⟨by simp [h2], rfl⟩
  rw [if_neg h13]
  by_cases h14 : seq = [58]
  · rw [if_pos h14]; exact ⟨by simp [h2], rfl⟩
  rw [if_neg h14]
  by_cases h15 : seq = [27, 91, 51, 126]
  · rw [if_pos h15]; exact ⟨by simp [h2], rfl⟩
  rw [if_neg h15]
  by_cases h16 : seq = [127]
  · rw [if_pos h16]; exact ⟨by simp [h2], rfl⟩
  rw [if_neg h16]
  by_cases h17 : seq = [10]
  · rw [if_pos h17]; exact ⟨by simp [h2], rfl⟩
  rw [if_neg h17]
  exact ⟨by simp [h2], rfl⟩

/-- Characterization of the Insertion-mode dispatch: the mode flips back to
Navigation exactly on the Escape-class events, and exactly those events save
the buffer to the file. -/
theorem dispatch_ins_char (seq : List Nat) (e : Editor) :
    ((dispatch true seq e).insert = false ↔ (seq = [27, 32] ∨ seq = [27])) ∧
    (dispatch true seq e).saved =
      (if seq = [27, 32] ∨ seq = [27] then some (editor_save_to_file e) else none) := by
  unfold dispatch
  rw [if_pos rfl]
  by_cases h1 : seq = [27, 32] ∨ seq = [27]
  · rw [if_pos h1]; exact ⟨by simp [h1], by rw [if_pos h1]⟩
  rw [if_neg h1]
  by_cases h2 : seq = [127]
  · rw [if_pos h2]; exact ⟨by simp [h1], by rw [if_neg h1]⟩
  rw [if_neg h2]
  by_cases h3 : seq = [27, 91, 51, 126]
  · rw [if_pos h3]; exact ⟨by simp [h1], by rw [if_neg h1]⟩
  rw [if_neg h3]
  by_cases h4 : seq = [10]
  · rw [if_pos h4]; exact ⟨by simp [h1], by rw [if_neg h1]⟩
  rw [if_neg h4]
  by_cases h5 : seq.length = 1 ∧ is_display (seq.getD 0 0)
  · rw [if_pos h5]; exact ⟨by simp [h1], by rw [if_neg h1]⟩
  rw [if_neg h5]
  exact ⟨by simp [h1], by rw [if_neg h1]⟩

/-- Claim C9: the editor's mode is the two-valued `insert` flag; on any input
event the dispatcher changes mode only Navigation→Insertion on the toggle
event (`"\x1b "` or `" "`) or Insertion→Navigation on an Escape-class event
(`"\x1b "` or `"\x1b"`); a save happens exactly on the Insertion→Navigation
transitions, and it writes the buffer to the file. -/
theorem mode_machine_spec (insert : Bool) (seq : List Nat) (e : Editor) :
    ((dispatch insert seq e).insert ≠ insert →
      ((insert = false ∧ (dispatch insert seq e).insert = true ∧
          (seq = [27, 32] ∨ seq = [32])) ∨
       (insert = true ∧ (dispatch insert seq e).insert = false ∧
          (seq = [27, 32] ∨ seq = [27])))) ∧
    ((dispatch insert seq e).saved ≠ none ↔
      insert = true ∧ (dispatch insert seq e).insert = false) ∧
    (insert = true → (dispatch insert seq e).insert = false →
      (dispatch insert seq e).saved = some (editor_save_to_file e)) := by
  cases insert with
  | false =>
    refine ⟨?_, ?_, ?_⟩
    · intro hne
      left
      have hins : (dispatch false seq e).insert = true := by
        cases h : (dispatch false seq e).insert
        · exact absurd h hne
        · rfl
      exact ⟨rfl, hins, ((dispatch_nav_char seq e).1).mp hins⟩
    · simp [(dispatch_nav_char seq e).2]
    · intro h; exact absurd h (by simp)
  | true =>
    refine ⟨?_, ?_, ?_⟩
    · intro hne
      right
      have hins : (dispatch true seq e).insert = false := by
        cases h : (dispatch true seq e).insert
        · rfl
        · exact absurd h hne
      exact ⟨rfl, hins, ((dispatch_ins_char seq e).1).mp hins⟩
    · rw [(dispatch_ins_char seq e).2]
      constructor
      · intro hne
        split at hne
        · exact ⟨rfl, ((dispatch_ins_char seq e).1).mpr (by assumption)⟩
        · exact absurd rfl hne
      · rintro ⟨-, hins⟩
        rw [if_pos (((dispatch_ins_char seq e).1).mp hins)]
        simp
    · intro _ hins
      rw [(dispatch_ins_char seq e).2, if_pos (((dispatch_ins_char seq e).1).mp hins)]

/-- Witness for `mode_machine_spec`: Escape in insert mode saves the buffer. -/
theorem mode_machine_spec_witness :
    (dispatch true [27] ⟨[97], [⟨0, 1⟩], 0, 0, 0⟩).saved
      = some (editor_save_to_file ⟨[97], [⟨0, 1⟩], 0, 0, 0⟩) :=
  (mode_machine_spec true [27] ⟨[97], [⟨0, 1⟩], 0, 0, 0⟩).2.2 rfl (by decide)

theorem decimal_go_mod : ∀ (s : List Nat) (acc : Nat),
    (∀ c ∈ s, isdigit c = true) →
    decimal_go s (acc % 2 ^ 64)
      = some (s.foldl (fun a c => a * 10 + (c - 48)) acc % 2 ^ 64) := by
  intro s
  induction s with
  | nil => intro acc _; rfl
  | cons c rest ih =>
    intro acc hdig
    have hc : isdigit c = true := hdig c (by simp)
    have hmod : (acc % 2 ^ 64 * 10 + (c - 48)) % 2 ^ 64
        = (acc * 10 + (c - 48)) % 2 ^ 64 := by
      rw [Nat.add_mod, Nat.mod_mul_mod, ← Nat.add_mod]
    simp only [decimal_go, if_pos hc, hmod, List.foldl_cons]
    exact ih (acc * 10 + (c - 48)) (fun x hx => hdig x (by simp [hx]))

theorem decimal_go_isSome : ∀ (s : List Nat) (acc : Nat),
    (decimal_go s acc).isSome = true ↔ ∀ c ∈ s, isdigit c = true := by
  intro s
  induction s with
  | nil => intro acc; simp [decimal_go]
  | cons c rest ih =>
    intro acc
    by_cases hc : isdigit c = true
    · simp [decimal_go, hc, ih]
    · simp [decimal_go, hc]

/-- Claim C10: the `-gt` value parser accepts exactly the all-digit strings
(the empty string included, with result 0, so an empty `-gt` value is not a
usage error and selects line 0); on accepted strings it returns the decimal
value reduced modulo `2^64` with no overflow rejection; any string containing
a non-digit is rejected, which makes `main` print usage and exit with
status 1. -/
theorem gt_parser_spec :
    (∀ s, (decimal_string_as_uint64_with_overflow s).isSome = true ↔
      ∀ c ∈ s, isdigit c = true) ∧
    (∀ s, (∀ c ∈ s, isdigit c = true) →
      decimal_string_as_uint64_with_overflow s = some (decimal_value s % 2 ^ 64)) ∧
    decimal_string_as_uint64_with_overflow [] = some 0 ∧
    handle_gt_value [] = Except.ok 0 ∧
    (∀ s, (∃ c ∈ s, isdigit c = false) → handle_gt_value s = Except.error 1) := by
  have hval : ∀ s, (∀ c ∈ s, isdigit c = true) →
      decimal_string_as_uint64_with_overflow s = some (decimal_value s % 2 ^ 64) := by
    intro s hdig
    have := decimal_go_mod s 0 hdig
    simpa [decimal_string_as_uint64_with_overflow, decimal_value] using this
  refine ⟨fun s => decimal_go_isSome s 0, hval, rfl, rfl, ?_⟩
  intro s hex
  have hnone : decimal_string_as_uint64_with_overflow s = none := by
    rcases hex with ⟨c, hcs, hc⟩
    rw [← Option.not_isSome_iff_eq_none, decimal_string_as_uint64_with_overflow,
      decimal_go_isSome]
    intro hall
    have h2 := hall c hcs
    rw [h2] at hc
    exact Bool.noConfusion hc
  simp [handle_gt_value, hnone]

/-- Witness for `gt_parser_spec`: `"99"` parses to 99 and `"-"` is rejected
with exit status 1. -/
theorem gt_parser_spec_witness :
    decimal_string_as_uint64_with_overflow [57, 57] = some (decimal_value [57, 57] % 2 ^ 64) ∧
    handle_gt_value [45] = Except.error 1 :=
  ⟨(gt_parser_spec).2.1 [57, 57] (by decide),
   (gt_parser_spec).2.2.2.2 [45] ⟨45, by decide, by decide⟩⟩

theorem getD_oob (ls : List Line) (j : Nat) (h : ls.length ≤ j) (d : Line) :
    ls.getD j d = d := by
  simp [List.getD_eq_getElem?_getD, List.getElem?_eq_none h]

theorem wf_from_begin_le_end : ∀ (ls : List Line) (b s j : Nat), wf_from b s ls →
    j < ls.length →
    (ls.getD j defaultLine).begin ≤ (ls.getD j defaultLine).«end» := by
  intro ls
  induction ls with
  | nil => intro b s j _ hj; simp at hj
  | cons l rest ih =>
    intro b s j hwf hj
    obtain ⟨hb, hle, hrest⟩ := hwf
    cases j with
    | zero => simpa using hle
    | succ j' =>
      exact ih (l.«end» + 1) s j' hrest (by simp only [List.length_cons] at hj; omega)

theorem wf_from_end_le : ∀ (ls : List Line) (b s j : Nat), wf_from b s ls →
    j < ls.length → (ls.getD j defaultLine).«end» ≤ s := by
  intro ls
  induction ls with
  | nil => intro b s j _ hj; simp at hj
  | cons l rest ih =>
    intro b s j hwf hj
    obtain ⟨hb, hle, hrest⟩ := hwf
    have hlend : l.«end» ≤ s := by
      cases rest with
      | nil => simp only [wf_from] at hrest; omega
      | cons l2 r2 =>
        have h2 := ih (l.«end» + 1) s 0 hrest (by simp)
        obtain ⟨hb2, hle2, _⟩ := hrest
        simp only [List.getD_cons_zero] at h2
        omega
    cases j with
    | zero => simpa using hlend
    | succ j' =>
      rw [List.getD_cons_succ]
      exact ih (l.«end» + 1) s j' hrest (by simp only [List.length_cons] at hj; omega)

theorem getD_end_le (ls : List Line) (s j : Nat) (hwf : wf_from 0 s ls) :
    (ls.getD j defaultLine).«end» ≤ s := by
  by_cases hj : j < ls.length
  · exact wf_from_end_le ls 0 s j hwf hj
  · rw [getD_oob ls j (by omega) defaultLine]
    exact Nat.zero_le s

theorem getD_begin_le (ls : List Line) (s j : Nat) (hwf : wf_from 0 s ls) :
    (ls.getD j defaultLine).begin ≤ s := by
  by_cases hj : j < ls.length
  · exact Nat.le_trans (wf_from_begin_le_end ls 0 s j hwf hj)
      (wf_from_end_le ls 0 s j hwf hj)
  · rw [getD_oob ls j (by omega) defaultLine]
    exact Nat.zero_le s

theorem scan_left_le (d : List Nat) (p : Nat → Bool) : ∀ c, scan_left d p c ≤ c := by
  intro c
  induction c with
  | zero => simp [scan_left]
  | succ c' ih =>
    rw [scan_left]
    split
    · omega
    · exact Nat.le_refl _

theorem scan_right_le_aux (d : List Nat) (p : Nat → Bool) :
    ∀ (n c : Nat), d.length - 1 - c ≤ n → c ≤ d.length → scan_right d p c ≤ d.length := by
  intro n
  induction n with
  | zero =>
    intro c hn hc
    rw [scan_right]
    split
    · next hcond => exact absurd hcond.1 (by omega)
    · exact hc
  | succ m ih =>
    intro c hn hc
    rw [scan_right]
    split
    · next hcond => exact ih (c + 1) (by omega) (by omega)
    · exact hc

theorem scan_right_le (d : List Nat) (p : Nat → Bool) (c : Nat) (hc : c ≤ d.length) :
    scan_right d p c ≤ d.length :=
  scan_right_le_aux d p (d.length - 1 - c) c (Nat.le_refl _) hc

/-- Context for the `editor_move_word_right` bug: all other Navigator
operations keep the cursor inside `[0, length]` for any consistent line index
and starting cursor in range, and `word_right` does too once the buffer is
nonempty (for the empty buffer the C loop guard wraps, see
`word_right_empty_buffer_oob`). -/
theorem navigator_cursor_in_range (e : Editor)
    (hwf : wf_from 0 e.data.length e.lines) (hc : e.cursor ≤ e.data.length) :
    (editor_move_char_left e).cursor ≤ e.data.length ∧
    (editor_move_char_right e).cursor ≤ e.data.length ∧
    (editor_move_line_up e).cursor ≤ e.data.length ∧
    (editor_move_line_down e).cursor ≤ e.data.length ∧
    (editor_move_word_left e).cursor ≤ e.data.length ∧
    (1 ≤ e.data.length → (editor_move_word_right e).cursor ≤ e.data.length) ∧
    (editor_move_paragraph_up e).cursor ≤ e.data.length ∧
    (editor_move_paragraph_down e).cursor ≤ e.data.length ∧
    (editor_move_to_buffer_start e).cursor ≤ e.data.length ∧
    (editor_move_to_buffer_end e).cursor ≤ e.data.length ∧
    (editor_move_to_line_start e).cursor ≤ e.data.length ∧
    (editor_move_to_line_end e).cursor ≤ e.data.length := by
  have hend : ∀ j, (e.lines.getD j defaultLine).«end» ≤ e.data.length :=
    fun j => getD_end_le _ _ _ hwf
  have hbeg : ∀ j, (e.lines.getD j defaultLine).begin ≤ e.data.length :=
    fun j => getD_begin_le _ _ _ hwf
  refine ⟨?_, ?_, ?_, ?_, ?_, ?_, ?_, ?_, ?_, ?_, ?_, ?_⟩
  · simp only [editor_move_char_left]
    split
    · simp
      omega
    · exact hc
  · simp only [editor_move_char_right]
    split
    · simp
      omega
    · exact hc
  · simp only [editor_move_line_up]
    split
    · split
      · exact hend _
      · next h =>
        push_neg at h
        exact Nat.le_trans h (hend _)
    · exact hc
  · simp only [editor_move_line_down]
    split
    · split
      · exact hend _
      · next h =>
        push_neg at h
        exact Nat.le_trans h (hend _)
    · exact hc
  · simp only [editor_move_word_left]
    exact Nat.le_trans (scan_left_le _ _ _)
      (Nat.le_trans (scan_left_le _ _ _) hc)
  · intro _
    simp only [editor_move_word_right]
    exact scan_right_le _ _ _ (scan_right_le _ _ _ hc)
  · simp only [editor_move_paragraph_up]
    exact hbeg _
  · simp only [editor_move_paragraph_down]
    exact hbeg _
  · simp only [editor_move_to_buffer_start]
    exact Nat.zero_le _
  · simp only [editor_move_to_buffer_end]
    exact Nat.le_refl _
  · simp only [editor_move_to_line_start]
    exact hbeg _
  · simp only [editor_move_to_line_end]
    exact hend _

end Noed
